import Mathlib

/-!
Verification of the byte-size core of the `winpy` repository
(`src/file/pathlib/get_folder_size.py`).

The program has two pieces:

* `ByteSize`, an `int` subclass storing a raw byte count; on construction it
  derives scaled unit views (`kilobytes = self / 1024`, `megabytes = self / 1024**2`,
  `gigabytes = self / 1024**3`, `petabytes = self / 1024**4`) and a human-readable
  `(suffix, value)` pair chosen by scanning `['B', 'kB', 'MB', 'GB']` for the first
  suffix whose scaled value lies in `[1, 1024)`, falling back to `'PB'`.
  Arithmetic dunders (`__add__`, `__sub__`, `__mul__`, `__radd__`, `__rsub__`,
  `__rmul__`) rewrap results in `ByteSize`.
* `get_folder_size(folder)`, which returns
  `ByteSize(sum(file.stat().st_size for file in Path(folder).rglob('*')))`.

Embedding notes:

* Python ints are `ℤ`; the scaled unit views use Python float division, which for
  a division of an integer below `2^53` by a power of two is exact, so they are
  embedded as exact rational division (`ℚ`).
* The filesystem is external input: it is modelled as a finite tree `FSEntry` of
  regular files (with a natural-number `st_size`) and directories.  The repository
  targets Windows (its example paths are drive-letter paths), where `stat()` on a
  directory reports `st_size == 0`; `stSize` embeds that.
* `Path.rglob('*')` enumerates every entry strictly below the root, recursively.
  CPython's `pathlib` selector begins with `if not is_dir(parent_path): return iter([])`,
  so a root that does not exist (or is a plain file) yields no entries and no error;
  the root itself is never yielded.  A possibly missing root is an `Option FSEntry`
  (`none` for a path that does not exist).
* Python `'{val:.<p>f}'` formatting of a float whose value is an exact rational
  rounds the value to `p` decimal places with ties to even; `fmtFixed` embeds that.
-/

/-- A filesystem entry: a regular file with its `st_size`, or a directory with
its children.  This models the external filesystem tree that
`Path(folder).rglob('*')` traverses. -/
inductive FSEntry where
  | file (size : Nat)
  | dir (children : List FSEntry)

/-- `stat().st_size` of an entry, as the Python int it returns: the file's size
for a regular file, and 0 for a directory (Windows `stat` semantics, which the
repository targets). -/
def stSize : FSEntry → Int
  | .file s => (s : Int)
  | .dir _ => 0

mutual

/-- The list of entries yielded by `Path(root).rglob('*')` for an existing root:
every entry strictly below the root, recursively.  A regular-file root matches
pathlib's `is_dir` guard and yields nothing. -/
def rglobEntries : FSEntry → List FSEntry
  | .file _ => []
  | .dir cs => rglobChildren cs

/-- Traversal of a list of sibling entries: each child is yielded, followed by
its own recursive contents. -/
def rglobChildren : List FSEntry → List FSEntry
  | [] => []
  | c :: cs => c :: (rglobEntries c ++ rglobChildren cs)

end

/-- The model of `ByteSize`: Python's `int` subclass stores the integer value
itself; `self.bytes = int(self)` is the canonical stored value. -/
structure ByteSize where
  bytes : Int
deriving Repr, DecidableEq

/-- `get_folder_size(folder)`: sums `stat().st_size` over every entry yielded by
`Path(folder).rglob('*')` and wraps the sum in a `ByteSize`.  A `none` root (a
path that does not exist) yields no entries, exactly as pathlib's selector
returns an empty iterator when `is_dir` fails on the root. -/
def get_folder_size (root : Option FSEntry) : ByteSize :=
  ByteSize.mk (((match root with
    | none => []
    | some e => rglobEntries e).map stSize).sum)

mutual

/-- The sum of the sizes of the regular files in a tree, directories themselves
contributing 0: the specification-side description of what the traversal sums. -/
def filesSum : FSEntry → Int
  | .file s => (s : Int)
  | .dir cs => filesSumList cs

/-- `filesSum` over a list of sibling entries. -/
def filesSumList : List FSEntry → Int
  | [] => 0
  | c :: cs => filesSum c + filesSumList cs

end

namespace ByteSize

/-- `self.kilobytes = self / self._kB**1` (exact: float division of an int by a
power of two). -/
def kilobytes (b : ByteSize) : ℚ := (b.bytes : ℚ) / 1024

/-- `self.megabytes = self / self._kB**2`. -/
def megabytes (b : ByteSize) : ℚ := (b.bytes : ℚ) / 1024 ^ 2

/-- `self.gigabytes = self / self._kB**3`. -/
def gigabytes (b : ByteSize) : ℚ := (b.bytes : ℚ) / 1024 ^ 3

/-- `self.petabytes = self / self._kB**4`. -/
def petabytes (b : ByteSize) : ℚ := (b.bytes : ℚ) / 1024 ^ 4

/-- `self._suffixes = 'B', 'kB', 'MB', 'GB', 'PB'`. -/
def suffixList : List String := ["B", "kB", "MB", "GB", "PB"]

/-- `getattr(self, suffix)` for the suffix attributes set in `__init__`:
`self.B = int(self)`, `self.kB = kilobytes`, `self.MB = megabytes`,
`self.GB = gigabytes`, `self.PB = petabytes`. -/
def getattrSuffix (b : ByteSize) (s : String) : ℚ :=
  if s = "B" then (b.bytes : ℚ)
  else if s = "kB" then b.kilobytes
  else if s = "MB" then b.megabytes
  else if s = "GB" then b.gigabytes
  else b.petabytes

/-- `self.readable`: destructure `*suffixes, last = self._suffixes`, take the
first suffix among `suffixes` whose scaled value satisfies
`1 <= getattr(self, suffix) < self._kB`, defaulting to `last` (`'PB'`), and pair
it with its scaled value. -/
def readable (b : ByteSize) : String × ℚ :=
  let chosen := (suffixList.dropLast.find? fun s =>
    decide (1 ≤ b.getattrSuffix s) && decide (b.getattrSuffix s < 1024)).getD "PB"
  (chosen, b.getattrSuffix chosen)

/-- `__sub__`: `self.__class__(super().__sub__(other))`, i.e. rewrap
`int(self) - int(other)`.  `other` is the integer value of the right operand
(a `ByteSize` operand contributes its `bytes`). -/
def sub (b : ByteSize) (other : Int) : ByteSize := ByteSize.mk (b.bytes - other)

/-- `__add__`: rewrap `int(self) + int(other)`. -/
def add (b : ByteSize) (other : Int) : ByteSize := ByteSize.mk (b.bytes + other)

/-- `__mul__`: rewrap `int(self) * int(other)`. -/
def mul (b : ByteSize) (other : Int) : ByteSize := ByteSize.mk (b.bytes * other)

/-- `__rsub__` (invoked for `other - self`): the source computes
`self.__class__(super().__sub__(other))`, i.e. `int(self) - other`, the same
operand order as `__sub__`. -/
def rsub (b : ByteSize) (other : Int) : ByteSize := ByteSize.mk (b.bytes - other)

/-- `__radd__` (invoked for `other + self`): `self.__class__(super().__add__(other))`,
i.e. `int(self) + other`. -/
def radd (b : ByteSize) (other : Int) : ByteSize := ByteSize.mk (b.bytes + other)

/-- `__rmul__` (invoked for `other * self`): `self.__class__(super().__rmul__(other))`,
i.e. `other * int(self)`. -/
def rmul (b : ByteSize) (other : Int) : ByteSize := ByteSize.mk (other * b.bytes)

end ByteSize

/-- Round a rational to the nearest integer, ties to even: the rounding Python
applies to the exact value of a float when formatting with `'.<p>f'`. -/
def rndHalfEven (q : ℚ) : Int :=
  let f := ⌊q⌋
  let r := q - (f : ℚ)
  if r < 1 / 2 then f
  else if 1 / 2 < r then f + 1
  else if f % 2 = 0 then f else f + 1

/-- Left-pad a digit string with zeros to the given width. -/
def padZeros (s : String) (w : Nat) : String :=
  String.mk (List.replicate (w - s.length) '0') ++ s

/-- Python `'{val:.<prec>f}'.format(val=q)` for a float of exact value `q`:
round `q` to `prec` decimal places (ties to even) and print with exactly
`prec` digits after the point. -/
def fmtFixed (q : ℚ) (prec : Nat) : String :=
  let scaled := rndHalfEven (q * (10 : ℚ) ^ prec)
  let sign := if scaled < 0 then "-" else ""
  let m := scaled.natAbs
  if prec = 0 then sign ++ toString (m / 10 ^ prec)
  else sign ++ toString (m / 10 ^ prec) ++ "." ++ padZeros (toString (m % 10 ^ prec)) prec

/-- `__format__(format_spec)` with `format_spec = '.<prec>f'`:
`'{val:{fmt}} {suf}'.format(val=val, fmt=format_spec, suf=suffix)` where
`(suffix, val) = self.readable`. -/
def ByteSize.format (b : ByteSize) (prec : Nat) : String :=
  fmtFixed b.readable.2 prec ++ " " ++ b.readable.1

/-- The readable-pair selection as the spec words it: the first unit of
`[B, kB, MB, GB]` whose scaled value `n / 1024^k` lies in `[1, 1024)` — as
integer ranges on `n` these tiers are `[1024^k, 1024^(k+1))`, written below
as the literals `1024 = 1024^1`, `1048576 = 1024^2`, `1073741824 = 1024^3`
and `1099511627776 = 1024^4` — with the `PB` pair as fallback when no unit
qualifies. -/
def readableSpec (n : Int) : String × ℚ :=
  if 1 ≤ n ∧ n < 1024 then ("B", (n : ℚ))
  else if 1024 ≤ n ∧ n < 1048576 then ("kB", (n : ℚ) / 1024)
  else if 1048576 ≤ n ∧ n < 1073741824 then ("MB", (n : ℚ) / 1024 ^ 2)
  else if 1073741824 ≤ n ∧ n < 1099511627776 then ("GB", (n : ℚ) / 1024 ^ 3)
  else ("PB", (n : ℚ) / 1024 ^ 4)

attribute [local semireducible] Rat.mul Rat.inv Rat.add Rat.sub

theorem getattr_B (b : ByteSize) : b.getattrSuffix "B" = (b.bytes : ℚ) := rfl

theorem getattr_kB (b : ByteSize) : b.getattrSuffix "kB" = (b.bytes : ℚ) / 1024 := rfl

theorem getattr_MB (b : ByteSize) : b.getattrSuffix "MB" = (b.bytes : ℚ) / 1024 ^ 2 := rfl

theorem getattr_GB (b : ByteSize) : b.getattrSuffix "GB" = (b.bytes : ℚ) / 1024 ^ 3 := rfl

theorem getattr_PB (b : ByteSize) : b.getattrSuffix "PB" = (b.bytes : ℚ) / 1024 ^ 4 := rfl

theorem one_le_div_pow_iff (n : Int) (k : Nat) :
    (1 : ℚ) ≤ (n : ℚ) / 1024 ^ k ↔ 1024 ^ k ≤ n := by
  rw [le_div_iff₀ (by positivity), one_mul]
  norm_cast

theorem div_pow_lt_iff (n : Int) (k : Nat) :
    (n : ℚ) / 1024 ^ k < 1024 ↔ n < 1024 ^ (k + 1) := by
  rw [div_lt_iff₀ (by positivity)]
  rw [show ((1024 : ℚ) * 1024 ^ k) = 1024 ^ (k + 1) by ring]
  norm_cast

theorem tier_iff (n : Int) (s : String) (k : Nat)
    (h : (ByteSize.mk n).getattrSuffix s = (n : ℚ) / 1024 ^ k) :
    ((decide ((1 : ℚ) ≤ (ByteSize.mk n).getattrSuffix s) &&
      decide ((ByteSize.mk n).getattrSuffix s < 1024)) = true) ↔
    (1024 ^ k ≤ n ∧ n < 1024 ^ (k + 1)) := by
  simp only [Bool.and_eq_true, decide_eq_true_eq, h, one_le_div_pow_iff, div_pow_lt_iff]

theorem readable_mk_eq (n : Int) : (ByteSize.mk n).readable = readableSpec n := by
  have hB := tier_iff n "B" 0 (by rw [getattr_B]; norm_num)
  have hkB := tier_iff n "kB" 1 (by rw [getattr_kB]; norm_num)
  have hMB := tier_iff n "MB" 2 (getattr_MB _)
  have hGB := tier_iff n "GB" 3 (getattr_GB _)
  rw [show ((1024 : Int) ^ 0) = 1 by norm_num, show ((1024 : Int) ^ (0 + 1)) = 1024 by norm_num] at hB
  rw [show ((1024 : Int) ^ 1) = 1024 by norm_num,
    show ((1024 : Int) ^ (1 + 1)) = 1048576 by norm_num] at hkB
  rw [show ((1024 : Int) ^ 2) = 1048576 by norm_num,
    show ((1024 : Int) ^ (2 + 1)) = 1073741824 by norm_num] at hMB
  rw [show ((1024 : Int) ^ 3) = 1073741824 by norm_num,
    show ((1024 : Int) ^ (3 + 1)) = 1099511627776 by norm_num] at hGB
  have hbn : (ByteSize.mk n).bytes = n := rfl
  by_cases c0 : 1 ≤ n ∧ n < 1024
  · have hfind : (ByteSize.suffixList.dropLast.find? fun s =>
        decide (1 ≤ (ByteSize.mk n).getattrSuffix s) &&
        decide ((ByteSize.mk n).getattrSuffix s < 1024)) = some "B" := by
      show (List.find? _ ["B", "kB", "MB", "GB"]) = some "B"
      exact List.find?_cons_of_pos _ (hB.mpr c0)
    simp only [ByteSize.readable, hfind, Option.getD_some, readableSpec, if_pos c0]
    rw [getattr_B, hbn]
  · by_cases c1 : 1024 ≤ n ∧ n < 1048576
    · have hfind : (ByteSize.suffixList.dropLast.find? fun s =>
          decide (1 ≤ (ByteSize.mk n).getattrSuffix s) &&
          decide ((ByteSize.mk n).getattrSuffix s < 1024)) = some "kB" := by
        show (List.find? _ ["B", "kB", "MB", "GB"]) = some "kB"
        rw [List.find?_cons_of_neg _ (by rw [hB]; omega)]
        exact List.find?_cons_of_pos _ (hkB.mpr c1)
      simp only [ByteSize.readable, hfind, Option.getD_some, readableSpec,
        if_neg c0, if_pos c1]
      rw [getattr_kB, hbn]
    · by_cases c2 : 1048576 ≤ n ∧ n < 1073741824
      · have hfind : (ByteSize.suffixList.dropLast.find? fun s =>
            decide (1 ≤ (ByteSize.mk n).getattrSuffix s) &&
            decide ((ByteSize.mk n).getattrSuffix s < 1024)) = some "MB" := by
          show (List.find? _ ["B", "kB", "MB", "GB"]) = some "MB"
          rw [List.find?_cons_of_neg _ (by rw [hB]; omega),
            List.find?_cons_of_neg _ (by rw [hkB]; omega)]
          exact List.find?_cons_of_pos _ (hMB.mpr c2)
        simp only [ByteSize.readable, hfind, Option.getD_some, readableSpec,
          if_neg c0, if_neg c1, if_pos c2]
        rw [getattr_MB, hbn]
      · by_cases c3 : 1073741824 ≤ n ∧ n < 1099511627776
        · have hfind : (ByteSize.suffixList.dropLast.find? fun s =>
              decide (1 ≤ (ByteSize.mk n).getattrSuffix s) &&
              decide ((ByteSize.mk n).getattrSuffix s < 1024)) = some "GB" := by
            show (List.find? _ ["B", "kB", "MB", "GB"]) = some "GB"
            rw [List.find?_cons_of_neg _ (by rw [hB]; omega),
              List.find?_cons_of_neg _ (by rw [hkB]; omega),
              List.find?_cons_of_neg _ (by rw [hMB]; omega)]
            exact List.find?_cons_of_pos _ (hGB.mpr c3)
          simp only [ByteSize.readable, hfind, Option.getD_some, readableSpec,
            if_neg c0, if_neg c1, if_neg c2, if_pos c3]
          rw [getattr_GB, hbn]
        · have hfind : (ByteSize.suffixList.dropLast.find? fun s =>
              decide (1 ≤ (ByteSize.mk n).getattrSuffix s) &&
              decide ((ByteSize.mk n).getattrSuffix s < 1024)) = none := by
            show (List.find? _ ["B", "kB", "MB", "GB"]) = none
            rw [List.find?_cons_of_neg _ (by rw [hB]; omega),
              List.find?_cons_of_neg _ (by rw [hkB]; omega),
              List.find?_cons_of_neg _ (by rw [hMB]; omega),
              List.find?_cons_of_neg _ (by rw [hGB]; omega)]
            rfl
          simp only [ByteSize.readable, hfind, Option.getD_none, readableSpec,
            if_neg c0, if_neg c1, if_neg c2, if_neg c3]
          rw [getattr_PB, hbn]

mutual

theorem stSize_add_rglob_sum : ∀ e : FSEntry,
    stSize e + ((rglobEntries e).map stSize).sum = filesSum e
  | .file s => by simp [stSize, rglobEntries, filesSum]
  | .dir cs => by
    have h := rglobChildren_sum cs
    simp [stSize, rglobEntries, filesSum, h]

theorem rglobChildren_sum : ∀ cs : List FSEntry,
    ((rglobChildren cs).map stSize).sum = filesSumList cs
  | [] => by simp [rglobChildren, filesSumList]
  | c :: cs => by
    have h1 := stSize_add_rglob_sum c
    have h2 := rglobChildren_sum cs
    simp only [rglobChildren, filesSumList, List.map_cons, List.map_append,
      List.sum_cons, List.sum_append]
    omega

end

theorem stSize_nonneg (e : FSEntry) : 0 ≤ stSize e := by
  cases e <;> simp [stSize]

theorem get_folder_size_nonneg (root : Option FSEntry) :
    0 ≤ (get_folder_size root).bytes := by
  cases root with
  | none => simp [get_folder_size]
  | some e =>
    refine List.sum_nonneg ?_
    intro x hx
    simp only [List.mem_map] at hx
    obtain ⟨y, _, rfl⟩ := hx
    exact stSize_nonneg y

/-- Claim C1: for every root directory, `get_folder_size` returns a `ByteSize`
whose `bytes` equals the sum of the sizes of the regular files reachable by
recursive descent from the root, directories themselves contributing 0; on a
directory containing files of sizes 10, 20 and 30 bytes and one empty
subdirectory it returns `ByteSize.mk 60`. -/
theorem folder_size_is_file_sum (cs : List FSEntry) :
    (get_folder_size (some (.dir cs))).bytes = filesSum (.dir cs) ∧
    get_folder_size (some (.dir [.file 10, .file 20, .file 30, .dir []])) =
      ByteSize.mk 60 := by
  constructor
  · have h := rglobChildren_sum cs
    simp [get_folder_size, rglobEntries, filesSum, h]
  · decide

/-- Claim C2, counterexample: both operands are folder sizes (hence reachable
through the public operations), yet `Subtract` yields a `ByteSize` whose stored
`bytes` is negative, refuting the claimed invariant. -/
theorem sub_breaks_nonneg :
    ((get_folder_size (some (.dir [.file 1]))).sub
      (get_folder_size (some (.dir [.file 2]))).bytes).bytes < 0 := by decide

/-- Claim C2, amended: construction from a folder-size sum, `Add`, and
`Multiply` with non-negative integer operands preserve non-negativity of
`bytes`; `Subtract` does not clamp at zero and is excluded from the invariant. -/
theorem nonneg_preserved (a b : Int) (ha : 0 ≤ a) (hb : 0 ≤ b)
    (root : Option FSEntry) :
    0 ≤ (get_folder_size root).bytes ∧
    0 ≤ ((ByteSize.mk a).add b).bytes ∧
    0 ≤ ((ByteSize.mk a).mul b).bytes := by
  refine ⟨get_folder_size_nonneg root, ?_, ?_⟩
  · simp only [ByteSize.add]
    omega
  · simp only [ByteSize.mul]
    exact mul_nonneg ha hb

/-- Claim C2, witness for the amended theorem at `a = 3`, `b = 5`, an empty
directory as root. -/
theorem nonneg_preserved_witness :
    (0 : Int) ≤ 3 ∧ (0 : Int) ≤ 5 ∧
    (0 ≤ (get_folder_size (some (.dir []))).bytes ∧
     0 ≤ ((ByteSize.mk 3).add 5).bytes ∧
     0 ≤ ((ByteSize.mk 3).mul 5).bytes) :=
  ⟨by decide, by decide, nonneg_preserved 3 5 (by decide) (by decide) (some (.dir []))⟩

/-- Claim C3: for every byte count `n`, `readable` returns the first unit in
`[B, kB, MB, GB]` whose scaled value `n / 1024^k` lies in `[1, 1024)` paired
with that scaled value, and the `PB` pair when no unit qualifies; for `n = 0`
it falls through every unit and yields the `PB` pair, so `ByteSize.mk 0`
formats as `"0.00 PB"`. -/
theorem readable_first_qualifying_unit :
    (∀ n : Int, (ByteSize.mk n).readable = readableSpec n) ∧
    (ByteSize.mk 0).readable = ("PB", 0) ∧
    ByteSize.format (ByteSize.mk 0) 2 = "0.00 PB" :=
  ⟨readable_mk_eq, by decide, by decide⟩

/-- Claim C4, counterexample: `get_folder_size` on a path that does not exist
does return a `ByteSize` (with `bytes = 0`) instead of failing: `rglob` yields
no entries for a missing root, so the sum is 0 and no error is raised. -/
theorem missing_root_returns_bytesize :
    (get_folder_size none).bytes = 0 := by decide

/-- Claim C4, amended: `get_folder_size` applied to a path that does not exist
does not fail; it returns `ByteSize.mk 0`, because `Path.rglob` yields an empty
iterator when the root does not exist. -/
theorem missing_root_returns_zero :
    get_folder_size none = ByteSize.mk 0 := by decide

/-- Claim C5: for all non-negative integers `a` and `b`,
`Construct(a).Add(Construct(b)).bytes = a + b`, and adding `Construct(0)` is an
identity on `bytes`. -/
theorem add_roundtrip (a b : Int) (ha : 0 ≤ a) (hb : 0 ≤ b) (x : ByteSize) :
    ((ByteSize.mk a).add (ByteSize.mk b).bytes).bytes = a + b ∧
    (x.add (ByteSize.mk 0).bytes).bytes = x.bytes := by
  constructor <;> simp [ByteSize.add]

/-- Claim C5, witness at `a = 2`, `b = 3`, `x = ByteSize.mk 7`. -/
theorem add_roundtrip_witness :
    (0 : Int) ≤ 2 ∧ (0 : Int) ≤ 3 ∧
    (((ByteSize.mk 2).add (ByteSize.mk 3).bytes).bytes = 2 + 3 ∧
     ((ByteSize.mk 7).add (ByteSize.mk 0).bytes).bytes = (ByteSize.mk 7).bytes) :=
  ⟨by decide, by decide, add_roundtrip 2 3 (by decide) (by decide) (ByteSize.mk 7)⟩

/-- Claim C6: for every non-negative integer `n`, the derived unit accessors of
`ByteSize.mk n` are exactly `n / 1024`, `n / 1024²`, `n / 1024³` and `n / 1024⁴`
for kilobytes, megabytes, gigabytes and petabytes, as exact pure functions of
`bytes` with no rounding at storage time. -/
theorem unit_accessors_exact (n : Int) (h : 0 ≤ n) :
    (ByteSize.mk n).kilobytes = (n : ℚ) / 1024 ∧
    (ByteSize.mk n).megabytes = (n : ℚ) / 1024 ^ 2 ∧
    (ByteSize.mk n).gigabytes = (n : ℚ) / 1024 ^ 3 ∧
    (ByteSize.mk n).petabytes = (n : ℚ) / 1024 ^ 4 :=
  ⟨rfl, rfl, rfl, rfl⟩

/-- Claim C6, witness at `n = 4096`. -/
theorem unit_accessors_exact_witness :
    (0 : Int) ≤ 4096 ∧
    ((ByteSize.mk 4096).kilobytes = (4096 : ℚ) / 1024 ∧
     (ByteSize.mk 4096).megabytes = (4096 : ℚ) / 1024 ^ 2 ∧
     (ByteSize.mk 4096).gigabytes = (4096 : ℚ) / 1024 ^ 3 ∧
     (ByteSize.mk 4096).petabytes = (4096 : ℚ) / 1024 ^ 4) :=
  ⟨by decide, unit_accessors_exact 4096 (by decide)⟩

/-- Claim C7: `Format(precision)` renders the readable pair as the scaled value
printed to the given number of decimal places, a space, and the unit label; in
particular `ByteSize.mk 5000000` formatted with precision 2 is `"4.77 MB"`. -/
theorem format_renders_readable :
    ByteSize.format (ByteSize.mk 5000000) 2 = "4.77 MB" ∧
    ∀ (b : ByteSize) (p : Nat),
      ByteSize.format b p = fmtFixed b.readable.2 p ++ " " ++ b.readable.1 :=
  ⟨by decide, fun b p => rfl⟩

/-- Claim C8: `get_folder_size` applied to an existing directory containing no
entries returns `ByteSize.mk 0`. -/
theorem empty_dir_size_zero :
    get_folder_size (some (.dir [])) = ByteSize.mk 0 := by decide

/-- Claim C9: right-hand subtraction applies the operands in the same order as
left-hand subtraction — `rsub` of `x` with integer `n` returns
`ByteSize.mk (x.bytes - n)`, not `n - x.bytes` — unlike right-hand addition and
multiplication, which agree (on `bytes`) with their left-hand counterparts. -/
theorem rsub_same_order (n : Int) (x : ByteSize) :
    (x.rsub n).bytes = x.bytes - n ∧
    x.rsub n = x.sub n ∧
    (x.radd n).bytes = (x.add n).bytes ∧
    (x.rmul n).bytes = (x.mul n).bytes ∧
    ((ByteSize.mk 5).rsub 2).bytes ≠ 2 - 5 := by
  refine ⟨rfl, rfl, rfl, ?_, by decide⟩
  simp only [ByteSize.rmul, ByteSize.mul]
  exact Int.mul_comm n x.bytes

/-- Claim C10: `ByteSize` construction is total over all integers — for a
negative `n` it stores `bytes = n` without error, and the readable pair falls
back to `("PB", n / 1024⁴)` because no negative scaled value lies in
`[1, 1024)`. -/
theorem construct_total_negative (n : Int) (h : n < 0) :
    (ByteSize.mk n).bytes = n ∧
    (ByteSize.mk n).readable = ("PB", (n : ℚ) / 1024 ^ 4) := by
  refine ⟨rfl, ?_⟩
  rw [readable_mk_eq]
  unfold readableSpec
  rw [if_neg (by omega), if_neg (by omega), if_neg (by omega), if_neg (by omega)]

/-- Claim C10, witness at `n = -7`. -/
theorem construct_total_negative_witness :
    (-7 : Int) < 0 ∧
    ((ByteSize.mk (-7)).bytes = -7 ∧
     (ByteSize.mk (-7)).readable = ("PB", ((-7 : Int) : ℚ) / 1024 ^ 4)) :=
  ⟨by decide, construct_total_negative (-7) (by decide)⟩
